import Mathlib

/-!
Verification of the PV_Live API client core (pvlive_api/pvlive.py).

Times are modelled as natural numbers of microseconds since an arbitrary
epoch (Python datetimes are totally ordered and non-negative relative to
year 1; timedelta arithmetic in the client only ever moves forward).
All durations from the source (30 minutes, 30 days, 365 days) are exact
microsecond counts.
-/

/-- Microsecond count of one day. -/
def dayUs : Nat := 86400000000

/-- The national maximum query range: timedelta(days=365), line 54. -/
def maxRangeNationalUs : Nat := 365 * dayUs

/-- The regional maximum query range: timedelta(days=30), line 54. -/
def maxRangeRegionalUs : Nat := 30 * dayUs

/-- dt.minute for a microsecond timestamp. -/
def minuteOf (t : Nat) : Nat := t / 60000000 % 60

/-- dt.second for a microsecond timestamp. -/
def secondOf (t : Nat) : Nat := t / 1000000 % 60

/-- dt.microsecond for a microsecond timestamp. -/
def microsecondOf (t : Nat) : Nat := t % 1000000

/-- PVLive._nearest_interval (lines 495-500): if the instant is not on the
period grid (minute divisible by period, zero seconds and microseconds),
subtract timedelta(minutes=minute % period, seconds=second,
microseconds=microsecond) and add timedelta(minutes=period). -/
def nearest_interval (t p : Nat) : Nat :=
  if minuteOf t % p = 0 ∧ secondOf t = 0 ∧ microsecondOf t = 0 then t
  else t - (minuteOf t % p * 60000000 + secondOf t * 1000000 + microsecondOf t)
         + p * 60000000

/-- The alignment condition tested on line 497. -/
def aligned (t p : Nat) : Prop :=
  minuteOf t % p = 0 ∧ secondOf t = 0 ∧ microsecondOf t = 0

instance (t p : Nat) : Decidable (aligned t p) := by
  unfold aligned; exact inferInstance

/-- A loose model of Python scalar values, needed because line 421 of the
source compares the string-valued `entity_type` with the integer 0
(`entity_id == 0 and entity_type == 0`). -/
inductive PyVal
  | str (s : String)
  | int (n : Int)
deriving DecidableEq, Repr

/-- Python `==` on scalars: values of different types compare unequal
(no exception). -/
def pyEq : PyVal → PyVal → Bool
  | PyVal.str a, PyVal.str b => a = b
  | PyVal.int a, PyVal.int b => a = b
  | _, _ => false

/-- Lines 421-422: `max_range = self.max_range["national"] if entity_id == 0
and entity_type == 0 else self.max_range["regional"]`. -/
def max_range_for (entity_type : PyVal) (entity_id : Int) : Nat :=
  if entity_id = 0 ∧ pyEq entity_type (PyVal.int 0) = true then maxRangeNationalUs
  else maxRangeRegionalUs

/-- Fuel-indexed model of the chunking loop of `PVLive._between`
(lines 423-428): while request_start <= end, emit the chunk
(request_start, min end (request_start + max_range)) and advance
request_start by max_range + one period. -/
def chunksF (maxr step : Nat) : Nat → Nat → Nat → List (Nat × Nat)
  | 0, _, _ => []
  | f + 1, s, e =>
    if s ≤ e then (s, min e (s + maxr)) :: chunksF maxr step f (s + maxr + step) e
    else []

/-- The chunk sequence of `PVLive._between` for an aligned interval
[s, e]; the fuel e + 1 - s is sufficient whenever step > 0 because the
cursor advances by at least one per iteration. -/
def chunks (s e maxr step : Nat) : List (Nat × Nat) :=
  chunksF maxr step (e + 1 - s) s e

/-- Outcome of one HTTP GET attempt as classified by `PVLive._fetch_url`
(lines 473-484): either `raise_for_status` passes (a 2xx page whose body
may or may not parse as the expected JSON), or it raises an HTTPError
carrying the status code. -/
inductive Attempt
  | ok (parses : Bool)
  | httpError (status : Nat)
deriving DecidableEq, Repr

/-- The three ways `_fetch_url` can end: a parsed payload, the immediate
Bad Request exception from line 481 (any exception raised inside that
branch counts), or the "Error communicating" exception from lines 486
and 493 (retry exhaustion or an unparseable body). -/
inductive FetchOutcome
  | parsed
  | badRequest
  | commFailure
deriving DecidableEq, Repr

/-- The retry loop of `PVLive._fetch_url` (lines 466-493): `budget` is the
number of loop iterations still permitted (`retries + 1 - try_counter`),
`i` the index of the next attempt, `delay` the current backoff.  Returns
the outcome, the number of attempts actually made, and the list of sleeps
performed (the source sleeps then doubles, even before giving up). -/
def fetch_go (oracle : Nat → Attempt) : Nat → Nat → Nat → FetchOutcome × Nat × List Nat
  | 0, _, _ => (FetchOutcome.commFailure, 0, [])
  | budget + 1, i, delay =>
    match oracle i with
    | Attempt.ok parses =>
        (if parses then FetchOutcome.parsed else FetchOutcome.commFailure, 1, [])
    | Attempt.httpError status =>
        if status = 400 then (FetchOutcome.badRequest, 1, [])
        else
          match fetch_go oracle budget (i + 1) (delay * 2) with
          | (out, n, ds) => (out, n + 1, delay :: ds)

/-- `PVLive._fetch_url` with `self.retries = retries`: at most
`retries + 1` tries, initial delay 1. -/
def fetch_url_model (oracle : Nat → Attempt) (retries : Nat) : FetchOutcome × Nat × List Nat :=
  fetch_go oracle (retries + 1) 0 1

/-- An oracle answering 400 Bad Request to every attempt. -/
def oracleBad400 : Nat → Attempt := fun _ => Attempt.httpError 400

/-- An oracle answering three 500 errors then a parseable success. -/
def oracleServerErrThenOk : Nat → Attempt :=
  fun i => if i < 3 then Attempt.httpError 500 else Attempt.ok true

/-- A scalar field value of an API record: null (Python None), nan (the
numpy sentinel substituted for None in DataFrames), a numeric value
(floats modelled as rationals), a raw string, or a parsed datetime
(the result of pd.to_datetime on a timestamp string). -/
inductive Cell
  | null
  | nan
  | num (q : ℚ)
  | str (s : String)
  | dts (s : String)
deriving DecidableEq, Repr

/-- A Record: one positional row of the `data` array of a response. -/
abbrev Rcd := List Cell

/-- A Pandas DataFrame, reduced to its column names and rows. -/
structure DFrame where
  cols : List String
  rows : List Rcd
deriving DecidableEq, Repr

/-- The None-to-nan substitution of line 454. -/
def toNan : Cell → Cell
  | Cell.null => Cell.nan
  | c => c

/-- pd.to_datetime applied to one cell (line 457): timestamp strings
become parsed datetimes; nan becomes NaT (kept as nan here); other
values are left as they are. -/
def parseDT : Cell → Cell
  | Cell.str s => Cell.dts s
  | c => c

/-- Map a function with the positional index over the cells of a row. -/
def mapWithIdx (f : Nat → Cell → Cell) : Nat → List Cell → List Cell
  | _, [] => []
  | i, c :: cs => f i c :: mapWithIdx f (i + 1) cs

/-- `PVLive._convert_tuple_to_df` (lines 451-458): wrap a single tuple
into a one-row list at the call sites that pass one record, substitute
nan for None, build the DataFrame with `columns` as its column names,
and parse the datetime_gmt column when present.  No field or column is
ever removed. -/
def convert_tuple_to_df (data : List Rcd) (columns : List String) : DFrame :=
  let rows := data.map (fun t => t.map toNan)
  let rows2 := if columns.contains "datetime_gmt" then
      rows.map (fun row =>
        mapWithIdx (fun j c =>
          if columns.getD j "" = "datetime_gmt" then parseDT c else c) 0 row)
    else rows
  DFrame.mk columns rows2

/-- `PVLive.latest` (lines 207-217) after validation and the API query:
given the response's `data` and `meta`, an empty `data` returns None
(line 217); otherwise the first record is returned, converted to a
DataFrame when the `dataframe` flag is set. -/
def latest_model (data : List Rcd) (meta : List String) (dataframe : Bool) :
    Option (Rcd ⊕ DFrame) :=
  match data with
  | [] => none
  | d0 :: _ =>
    if dataframe then some (Sum.inr (convert_tuple_to_df [d0] meta))
    else some (Sum.inl d0)

/-- The Python exception kinds the modelled paths can raise. -/
inductive PyErr
  | typeError
  | valueError
  | pvliveError
  | attributeError
  | indexError
deriving DecidableEq, Repr

/-- A caller-supplied start/end argument: not a datetime at all, a naive
datetime, or a timezone-aware datetime with its timestamp. -/
inductive PyDT
  | notdt
  | naive (t : Nat)
  | aware (t : Nat)
deriving DecidableEq, Repr

/-- `PVLive._validate_inputs` (lines 502-519): entity_type must be a
string and one of "pes"/"gsp"; a pes id must be 0 or in the pes catalog;
a gsp id must be in the gsp catalog (no sentinel exemption); the period
must be 5 or 30.  extra_fields is a string at every call site modelled
here, so its isinstance check never fires. -/
def validate_inputs (gsp_ids pes_ids : List Int) (entity_type : PyVal)
    (entity_id : Int) (period : Nat) : Option PyErr :=
  match entity_type with
  | PyVal.int _ => some PyErr.typeError
  | PyVal.str s =>
    if s ≠ "pes" ∧ s ≠ "gsp" then some PyErr.valueError
    else if s = "pes" ∧ entity_id ≠ 0 ∧ entity_id ∉ pes_ids then some PyErr.pvliveError
    else if s = "gsp" ∧ entity_id ∉ gsp_ids then some PyErr.pvliveError
    else if period ≠ 5 ∧ period ≠ 30 then some PyErr.valueError
    else none

/-- The while-loop of `PVLive._between` (lines 419-428) with the network
modelled by an oracle mapping each (request_start, request_end) chunk to
the response's (data, meta).  Returns the accumulated data, the meta of
the last response (the `response` variable after the loop), and the list
of requests issued. -/
def between_loopF (oracle : Nat × Nat → List Rcd × List String) (maxr step : Nat) :
    Nat → Nat → Nat → List Rcd × List String × List (Nat × Nat)
  | 0, _, _ => ([], [], [])
  | f + 1, s, e =>
    if s ≤ e then
      let re := min e (s + maxr)
      let resp := oracle (s, re)
      let rest := between_loopF oracle maxr step f (s + maxr + step) e
      (resp.1 ++ rest.1,
       if s + maxr + step ≤ e then rest.2.1 else resp.2,
       (s, re) :: rest.2.2)
    else ([], [], [])

/-- The concatenation `data += response["data"]` over a request list. -/
def gatherData (oracle : Nat × Nat → List Rcd × List String) :
    List (Nat × Nat) → List Rcd
  | [] => []
  | c :: cs => (oracle c).1 ++ gatherData oracle cs

/-- `PVLive._between` (lines 403-431): validate, check start/end are
timezone-aware datetimes (line 412 evaluates start.tzinfo, raising
AttributeError on a non-datetime; a naive start short-circuits `or`
before end.tzinfo is read), reject end < start, align both bounds, then
run the chunk loop.  Returns the result (data and meta) or the raised
error, together with the list of network requests issued.  The loop runs
at least once because alignment is monotone, so the Python NameError on
`response` for an empty loop cannot occur. -/
def between_model (gsp_ids pes_ids : List Int) (entity_type : PyVal)
    (entity_id : Int) (period : Nat) (start end_ : PyDT)
    (oracle : Nat × Nat → List Rcd × List String) :
    Except PyErr (List Rcd × List String) × List (Nat × Nat) :=
  match validate_inputs gsp_ids pes_ids entity_type entity_id period with
  | some err => (Except.error err, [])
  | none =>
    match start, end_ with
    | PyDT.notdt, _ => (Except.error PyErr.attributeError, [])
    | PyDT.naive _, _ => (Except.error PyErr.valueError, [])
    | PyDT.aware _, PyDT.notdt => (Except.error PyErr.attributeError, [])
    | PyDT.aware _, PyDT.naive _ => (Except.error PyErr.valueError, [])
    | PyDT.aware ts, PyDT.aware te =>
      if te < ts then (Except.error PyErr.valueError, [])
      else
        let s := nearest_interval ts period
        let e := nearest_interval te period
        let maxr := max_range_for entity_type entity_id
        let step := period * 60000000
        let r := between_loopF oracle maxr step (e + 1 - s) s e
        (Except.ok (r.1, r.2.1), r.2.2)

/-- `PVLive.at_time` (lines 219-264): delegate to between with
start = end = dt; with the dataframe flag the DataFrame is returned
as-is, otherwise `tuple(result[0])` unwraps the first record and raises
IndexError when the list is empty. -/
def at_time_model (gsp_ids pes_ids : List Int) (entity_type : PyVal)
    (entity_id : Int) (period : Nat) (dt : PyDT)
    (oracle : Nat × Nat → List Rcd × List String) (dataframe : Bool) :
    Except PyErr (Rcd ⊕ DFrame) :=
  match between_model gsp_ids pes_ids entity_type entity_id period dt dt oracle with
  | (Except.error err, _) => Except.error err
  | (Except.ok (data, meta), _) =>
    if dataframe then Except.ok (Sum.inr (convert_tuple_to_df data meta))
    else
      match data with
      | [] => Except.error PyErr.indexError
      | r :: _ => Except.ok (Sum.inl r)

/-- `meta.index("generation_mw")` (line 362); the service contract
guarantees the field is present. -/
def genIndex (meta : List String) : Nat := meta.findIdx (fun f => f = "generation_mw")

/-- Line 363: `x[gen_index] if x[gen_index] is not None else -1e308`.
The service supplies generation_mw as a float or null; null maps to the
very negative sentinel. -/
def cellGen : Cell → ℚ
  | Cell.num v => v
  | _ => -(10 : ℚ) ^ 308

/-- Python `max(range(len(gens)), key=gens.__getitem__)` (line 364):
a linear scan that replaces the current best only on a strictly greater
value, hence returns the first maximal index. -/
def argmaxFirstAux : Nat → ℚ → Nat → List ℚ → Nat
  | best, _, _, [] => best
  | best, bestv, i, v :: rest =>
    if bestv < v then argmaxFirstAux i v (i + 1) rest
    else argmaxFirstAux best bestv (i + 1) rest

/-- First maximal index of a list of rationals (0 for the empty list,
which line 364 never reaches because of the `if data:` guard). -/
def argmaxFirst : List ℚ → Nat
  | [] => 0
  | v :: rest => argmaxFirstAux 0 v 1 rest

/-- The `gens` list of line 363. -/
def day_peak_gens (data : List Rcd) (gi : Nat) : List ℚ :=
  data.map (fun x => cellGen (x.getD gi Cell.null))

/-- The selection part of `PVLive.day_peak` (lines 361-369): None when
the day has no records, otherwise the record at the first maximal
generation index (nulls counted as -1e308). -/
def day_peak_select (data : List Rcd) (meta : List String) : Option Rcd :=
  match data with
  | [] => none
  | _ :: _ =>
    some (data.getD (argmaxFirst (day_peak_gens data (genIndex meta))) [])

/-- Line 358: `start = datetime.combine(d, time(0, 30, tzinfo=pytz.UTC))`
with the date d counted in whole days. -/
def day_peak_start (d : Nat) : Nat := d * dayUs + 1800000000

/-- Line 359: `end = start + timedelta(days=1) - timedelta(minutes=30)`. -/
def day_peak_end (d : Nat) : Nat := day_peak_start d + dayUs - 1800000000

/-- An oracle returning no rows and a fixed meta for every chunk. -/
def oracleEmpty : Nat × Nat → List Rcd × List String :=
  fun _ => ([], ["gsp_id", "datetime_gmt", "generation_mw"])

/-- An oracle returning one row and a fixed meta for every chunk. -/
def oracleOneRow : Nat × Nat → List Rcd × List String :=
  fun _ => ([[Cell.num 0, Cell.str "ts", Cell.num 1]],
            ["gsp_id", "datetime_gmt", "generation_mw"])

theorem residue_5 (t : Nat) :
    minuteOf t % 5 * 60000000 + secondOf t * 1000000 + microsecondOf t
      = t % 300000000 := by
  unfold minuteOf secondOf microsecondOf
  omega

theorem residue_30 (t : Nat) :
    minuteOf t % 30 * 60000000 + secondOf t * 1000000 + microsecondOf t
      = t % 1800000000 := by
  unfold minuteOf secondOf microsecondOf
  omega

theorem aligned_iff_5 (t : Nat) : aligned t 5 ↔ t % 300000000 = 0 := by
  have h := residue_5 t
  unfold aligned
  omega

theorem aligned_iff_30 (t : Nat) : aligned t 30 ↔ t % 1800000000 = 0 := by
  have h := residue_30 t
  unfold aligned
  omega

/-- Claim C6: for every instant t and supported period p (5 or 30 minutes),
the aligner returns t unchanged exactly when t lies on the p-minute grid;
otherwise it returns the next grid boundary, which is strictly later and on
the grid; consequently the aligner is idempotent. -/
theorem C6_nearest_interval_alignment (p t : Nat) (hp : p = 5 ∨ p = 30) :
    (nearest_interval t p = t ↔ aligned t p) ∧
    (¬ aligned t p →
      t < nearest_interval t p ∧
      nearest_interval t p = (t / (p * 60000000) + 1) * (p * 60000000) ∧
      aligned (nearest_interval t p) p ∧
      nearest_interval t p ≤ t + p * 60000000) ∧
    nearest_interval (nearest_interval t p) p = nearest_interval t p := by
  rcases hp with hp | hp <;> subst hp
  · by_cases h : aligned t 5
    · have h5 := h
      unfold aligned at h5
      have hid : nearest_interval t 5 = t := by rw [nearest_interval, if_pos h5]
      exact ⟨⟨fun _ => h, fun _ => hid⟩, fun hc => absurd h hc, by rw [hid, hid]⟩
    · have h5 : ¬ (minuteOf t % 5 = 0 ∧ secondOf t = 0 ∧ microsecondOf t = 0) := h
      have hres := residue_5 t
      have hv : nearest_interval t 5
          = t - t % 300000000 + 300000000 := by
        rw [nearest_interval, if_neg h5, hres]
      have hmod : t % 300000000 ≠ 0 := by
        have := (aligned_iff_5 t).mpr
        intro hz
        exact h (this hz)
      have hdm := Nat.div_add_mod t 300000000
      have hlt : t % 300000000 < 300000000 := Nat.mod_lt _ (by norm_num)
      have heq : nearest_interval t 5 = (t / 300000000 + 1) * 300000000 := by
        rw [hv]; omega
      have hgt : t < nearest_interval t 5 := by rw [hv]; omega
      have hres0 : nearest_interval t 5 % 300000000 = 0 := by
        rw [heq]; omega
      have hal : aligned (nearest_interval t 5) 5 := (aligned_iff_5 _).mpr hres0
      refine ⟨⟨fun he => absurd he (by omega), fun ha => absurd ha h⟩,
        fun _ => ⟨hgt, by simpa using heq, hal, by rw [hv]; omega⟩, ?_⟩
      have hal5 := hal
      unfold aligned at hal5
      rw [nearest_interval, if_pos hal5]
  · by_cases h : aligned t 30
    · have h30 := h
      unfold aligned at h30
      have hid : nearest_interval t 30 = t := by rw [nearest_interval, if_pos h30]
      exact ⟨⟨fun _ => h, fun _ => hid⟩, fun hc => absurd h hc, by rw [hid, hid]⟩
    · have h30 : ¬ (minuteOf t % 30 = 0 ∧ secondOf t = 0 ∧ microsecondOf t = 0) := h
      have hres := residue_30 t
      have hv : nearest_interval t 30
          = t - t % 1800000000 + 1800000000 := by
        rw [nearest_interval, if_neg h30, hres]
      have hmod : t % 1800000000 ≠ 0 := by
        have := (aligned_iff_30 t).mpr
        intro hz
        exact h (this hz)
      have hdm := Nat.div_add_mod t 1800000000
      have hlt : t % 1800000000 < 1800000000 := Nat.mod_lt _ (by norm_num)
      have heq : nearest_interval t 30 = (t / 1800000000 + 1) * 1800000000 := by
        rw [hv]; omega
      have hgt : t < nearest_interval t 30 := by rw [hv]; omega
      have hres0 : nearest_interval t 30 % 1800000000 = 0 := by
        rw [heq]; omega
      have hal : aligned (nearest_interval t 30) 30 := (aligned_iff_30 _).mpr hres0
      refine ⟨⟨fun he => absurd he (by omega), fun ha => absurd ha h⟩,
        fun _ => ⟨hgt, by simpa using heq, hal, by rw [hv]; omega⟩, ?_⟩
      have hal30 := hal
      unfold aligned at hal30
      rw [nearest_interval, if_pos hal30]

/-- Concrete instantiation of C6: period 30, the unaligned instant
2023-12-01T00:01:02.000003 (modelled as a raw microsecond count) rounds up
to the next half-hour boundary. -/
theorem C6_nearest_interval_alignment_witness :
    ((30 : Nat) = 5 ∨ (30 : Nat) = 30) ∧ ¬ aligned 62000003 30 ∧
      (62000003 < nearest_interval 62000003 30 ∧
       nearest_interval 62000003 30 = (62000003 / (30 * 60000000) + 1) * (30 * 60000000) ∧
       aligned (nearest_interval 62000003 30) 30 ∧
       nearest_interval 62000003 30 ≤ 62000003 + 30 * 60000000) :=
  ⟨Or.inr rfl, by decide,
    (C6_nearest_interval_alignment 30 62000003 (Or.inr rfl)).2.1 (by decide)⟩

theorem chunksF_nil_of_gt (maxr step : Nat) :
    ∀ f s e, e < s → chunksF maxr step f s e = [] := by
  intro f s e h
  cases f with
  | zero => rfl
  | succ g =>
    have : ¬ s ≤ e := by omega
    simp [chunksF, this]

theorem chunksF_cons_inv (maxr step : Nat) :
    ∀ f s e b l, chunksF maxr step f s e = b :: l →
      b = (s, min e (s + maxr)) ∧ s ≤ e := by
  intro f s e b l h
  cases f with
  | zero => simp [chunksF] at h
  | succ g =>
    by_cases hse : s ≤ e
    · rw [chunksF, if_pos hse] at h
      exact ⟨(List.cons.injEq _ _ _ _ ▸ h).1.symm, hse⟩
    · rw [chunksF, if_neg hse] at h
      cases h

theorem chunksF_congr (maxr step : Nat) (hstep : 0 < step) :
    ∀ f1 f2 s e, e + 1 - s ≤ f1 → e + 1 - s ≤ f2 →
      chunksF maxr step f1 s e = chunksF maxr step f2 s e := by
  intro f1
  induction f1 with
  | zero =>
    intro f2 s e h1 _
    have hse : e < s := by omega
    rw [chunksF_nil_of_gt maxr step 0 s e hse, chunksF_nil_of_gt maxr step f2 s e hse]
  | succ g1 ih =>
    intro f2 s e h1 h2
    by_cases hse : s ≤ e
    · obtain ⟨g2, rfl⟩ : ∃ g2, f2 = g2 + 1 := by
        cases f2 with
        | zero => omega
        | succ g2 => exact ⟨g2, rfl⟩
      rw [chunksF, if_pos hse, chunksF, if_pos hse]
      congr 1
      exact ih g2 (s + maxr + step) e (by omega) (by omega)
    · have hgt : e < s := by omega
      rw [chunksF_nil_of_gt maxr step _ s e hgt, chunksF_nil_of_gt maxr step f2 s e hgt]

theorem chunks_eq (s e maxr step : Nat) (hstep : 0 < step) :
    chunks s e maxr step =
      if s ≤ e then (s, min e (s + maxr)) :: chunks (s + maxr + step) e maxr step
      else [] := by
  unfold chunks
  by_cases hse : s ≤ e
  · rw [if_pos hse]
    obtain ⟨g, hg⟩ : ∃ g, e + 1 - s = g + 1 := ⟨e - s, by omega⟩
    rw [hg, chunksF, if_pos hse]
    congr 1
    exact chunksF_congr maxr step hstep g (e + 1 - (s + maxr + step))
      (s + maxr + step) e (by omega) (by omega)
  · rw [if_neg hse]
    exact chunksF_nil_of_gt maxr step _ s e (by omega)

theorem chunksF_mem_bounds (maxr step : Nat) :
    ∀ f s e, ∀ c ∈ chunksF maxr step f s e, s ≤ c.1 ∧ c.1 ≤ c.2 ∧ c.2 ≤ e := by
  intro f
  induction f with
  | zero => intro s e c hc; simp [chunksF] at hc
  | succ g ih =>
    intro s e c hc
    by_cases hse : s ≤ e
    · rw [chunksF, if_pos hse] at hc
      rcases List.mem_cons.mp hc with hceq | hctail
      · subst hceq
        exact ⟨le_refl s, le_min hse (by omega), min_le_left _ _⟩
      · have h := ih (s + maxr + step) e c hctail
        exact ⟨by omega, h.2.1, h.2.2⟩
    · rw [chunksF, if_neg hse] at hc
      simp at hc

theorem chunksF_chain (maxr step : Nat) :
    ∀ f s e, List.Chain' (fun c d : Nat × Nat => d.1 = c.2 + step)
      (chunksF maxr step f s e) := by
  intro f
  induction f with
  | zero => intro s e; simp [chunksF]
  | succ g ih =>
    intro s e
    by_cases hse : s ≤ e
    · rw [chunksF, if_pos hse]
      rw [List.chain'_cons']
      refine ⟨?_, ih (s + maxr + step) e⟩
      intro b hb
      cases hl : chunksF maxr step g (s + maxr + step) e with
      | nil => rw [hl] at hb; simp at hb
      | cons b0 l0 =>
        rw [hl] at hb
        simp at hb
        subst hb
        obtain ⟨hb0, hse2⟩ := chunksF_cons_inv maxr step g (s + maxr + step) e b0 l0 hl
        have hmin : min e (s + maxr) = s + maxr := by omega
        rw [hb0]
        simp [hmin]
    · rw [chunksF, if_neg hse]
      simp

theorem chunksF_pairwise (maxr step : Nat) (hstep : 0 < step) :
    ∀ f s e, List.Pairwise (fun c d : Nat × Nat => c.2 < d.1)
      (chunksF maxr step f s e) := by
  intro f
  induction f with
  | zero => intro s e; simp [chunksF]
  | succ g ih =>
    intro s e
    by_cases hse : s ≤ e
    · rw [chunksF, if_pos hse]
      rw [List.pairwise_cons]
      refine ⟨?_, ih (s + maxr + step) e⟩
      intro d hd
      have hb := chunksF_mem_bounds maxr step g (s + maxr + step) e d hd
      have hmin : min e (s + maxr) ≤ s + maxr := min_le_right _ _
      simp only
      omega
    · rw [chunksF, if_neg hse]
      simp

theorem chunksF_coverage (maxr step : Nat) (hstep : 0 < step)
    (hdvd : step ∣ maxr) :
    ∀ f s e t, e + 1 - s ≤ f → s ≤ t → t ≤ e → step ∣ (t - s) →
      ∃ c ∈ chunksF maxr step f s e, c.1 ≤ t ∧ t ≤ c.2 := by
  obtain ⟨m, hm⟩ := hdvd
  intro f
  induction f with
  | zero => intro s e t h1 h2 h3 _; omega
  | succ g ih =>
    intro s e t h1 h2 h3 hgrid
    have hse : s ≤ e := le_trans h2 h3
    rw [chunksF, if_pos hse]
    by_cases hin : t ≤ min e (s + maxr)
    · exact ⟨(s, min e (s + maxr)), List.mem_cons_self _ _, h2, hin⟩
    · obtain ⟨k, hk⟩ := hgrid
      have hmin : min e (s + maxr) = s + maxr := by omega
      rw [hmin] at hin
      have hkm : m < k := by
        have : step * m < step * k := by omega
        exact lt_of_mul_lt_mul_left this (Nat.zero_le step)
      have hstepk : maxr + step ≤ t - s := by
        have : step * (m + 1) ≤ step * k := Nat.mul_le_mul_left step hkm
        calc maxr + step = step * (m + 1) := by rw [hm]; ring
        _ ≤ step * k := this
        _ = t - s := hk.symm
      have hms : step * (m + 1) = maxr + step := by
        rw [Nat.mul_add, Nat.mul_one, ← hm]
      have hrec := ih (s + maxr + step) e t (by omega) (by omega) h3
        ⟨k - (m + 1), by rw [Nat.mul_sub, ← hk, hms]; omega⟩
      obtain ⟨c, hc, hc1, hc2⟩ := hrec
      exact ⟨c, List.mem_cons_of_mem _ hc, hc1, hc2⟩

theorem chunksF_last (maxr step : Nat) (hstep : 0 < step)
    (hdvd : step ∣ maxr) :
    ∀ f s e, e + 1 - s ≤ f → s ≤ e → step ∣ (e - s) →
      ∃ st, (chunksF maxr step f s e).getLast? = some (st, e) := by
  obtain ⟨m, hm⟩ := hdvd
  intro f
  induction f with
  | zero => intro s e h1 h2 _; omega
  | succ g ih =>
    intro s e h1 hse hgrid
    rw [chunksF, if_pos hse]
    by_cases hnext : s + maxr + step ≤ e
    · obtain ⟨k, hk⟩ := hgrid
      have hkm : m < k := by
        have : step * m < step * k := by omega
        exact lt_of_mul_lt_mul_left this (Nat.zero_le step)
      have hms : step * (m + 1) = maxr + step := by
        rw [Nat.mul_add, Nat.mul_one, ← hm]
      obtain ⟨st, hst⟩ := ih (s + maxr + step) e (by omega) (by omega)
        ⟨k - (m + 1), by rw [Nat.mul_sub, ← hk, hms]; omega⟩
      refine ⟨st, ?_⟩
      cases hl : chunksF maxr step g (s + maxr + step) e with
      | nil => rw [hl] at hst; simp at hst
      | cons b0 l0 =>
        rw [hl] at hst
        rw [List.getLast?_cons_cons]
        exact hst
    · obtain ⟨k, hk⟩ := hgrid
      have hkle : k ≤ m := by
        by_contra hc
        have : step * k ≥ step * (m + 1) := Nat.mul_le_mul_left step (by omega)
        have : step * (m + 1) = maxr + step := by rw [hm]; ring
        omega
      have hle : e ≤ s + maxr := by
        have : step * k ≤ step * m := Nat.mul_le_mul_left step hkle
        omega
      have hl : chunksF maxr step g (s + maxr + step) e = [] :=
        chunksF_nil_of_gt maxr step g _ e (by omega)
      rw [hl]
      have hmin : min e (s + maxr) = e := by omega
      rw [hmin]
      exact ⟨s, rfl⟩

/-- Claim C1 (evidence for the code bug): on line 421 the national maximum
range is selected only when `entity_type == 0`, but `entity_type` is a
string ("gsp" or "pes"), so in Python the comparison is always False and
the 365-day national limit defined on line 54 is never used: every query,
including the national query entity_type="gsp", entity_id=0, gets the
30-day regional limit.  A one-day national query is nevertheless served in
a single chunk (1 day < 30 days). -/
theorem C1_national_limit_never_selected :
    max_range_for (PyVal.str "gsp") 0 = maxRangeRegionalUs ∧
    max_range_for (PyVal.str "pes") 0 = maxRangeRegionalUs ∧
    (∀ s : String, ∀ eid : Int, max_range_for (PyVal.str s) eid = maxRangeRegionalUs) ∧
    maxRangeRegionalUs ≠ maxRangeNationalUs ∧
    chunks 1800000000 86400000000 maxRangeRegionalUs 1800000000
      = [(1800000000, 86400000000)] := by
  refine ⟨rfl, rfl, ?_, by decide, by decide⟩
  intro s eid
  simp [max_range_for, pyEq]

/-- Claim C2: for every aligned interval s ≤ e (both on the step grid) and
every maximum span that is a whole number of reporting periods, the chunk
sequence starts at s, steps by exactly one period past each chunk's end,
has pairwise disjoint chunks (no timestamp requested twice), covers every
grid timestamp of [s, e], ends exactly at e, and the degenerate case s = e
yields the single chunk (s, s). -/
theorem C2_chunking_partition (s e maxr step : Nat) (hstep : 0 < step)
    (hdvd : step ∣ maxr) (hse : s ≤ e) (hgrid : step ∣ (e - s)) :
    (chunks s e maxr step).head? = some (s, min e (s + maxr)) ∧
    List.Chain' (fun c d : Nat × Nat => d.1 = c.2 + step) (chunks s e maxr step) ∧
    List.Pairwise (fun c d : Nat × Nat => c.2 < d.1) (chunks s e maxr step) ∧
    (∀ c ∈ chunks s e maxr step, s ≤ c.1 ∧ c.1 ≤ c.2 ∧ c.2 ≤ e) ∧
    (∀ t, s ≤ t → t ≤ e → step ∣ (t - s) →
      ∃ c ∈ chunks s e maxr step, c.1 ≤ t ∧ t ≤ c.2) ∧
    (∃ st, (chunks s e maxr step).getLast? = some (st, e)) ∧
    (s = e → chunks s e maxr step = [(s, s)]) := by
  refine ⟨?_, chunksF_chain maxr step _ s e, chunksF_pairwise maxr step hstep _ s e,
    chunksF_mem_bounds maxr step _ s e,
    fun t h1 h2 h3 => chunksF_coverage maxr step hstep hdvd _ s e t (le_refl _) h1 h2 h3,
    chunksF_last maxr step hstep hdvd _ s e (le_refl _) hse hgrid, ?_⟩
  · rw [chunks_eq s e maxr step hstep, if_pos hse]
    rfl
  · intro heq
    subst heq
    rw [chunks_eq s s maxr step hstep, if_pos (le_refl s)]
    have h1 : min s (s + maxr) = s := by omega
    have h2 : chunks (s + maxr + step) s maxr step = [] := by
      rw [chunks_eq _ _ _ _ hstep, if_neg (by omega)]
    rw [h1, h2]

/-- Concrete instantiation of C2: s = 0, e = 100, max span 30, step 10
produces the chunks [(0,30), (40,70), (80,100)]. -/
theorem C2_chunking_partition_witness :
    (0 : Nat) < 10 ∧ (10 : Nat) ∣ 30 ∧ (0 : Nat) ≤ 100 ∧ (10 : Nat) ∣ (100 - 0) ∧
    (chunks 0 100 30 10).head? = some (0, min 100 (0 + 30)) ∧
    (∃ st, (chunks 0 100 30 10).getLast? = some (st, 100)) := by
  have h := C2_chunking_partition 0 100 30 10 (by decide) (by decide) (by decide) (by decide)
  exact ⟨by decide, by decide, by decide, by decide, h.1, h.2.2.2.2.2.1⟩

theorem delays_shift (d n : Nat) :
    d :: (List.range n).map (fun j => d * 2 * 2 ^ j)
      = (List.range (n + 1)).map (fun j => d * 2 ^ j) := by
  rw [List.range_succ_eq_map, List.map_cons, List.map_map]
  simp [Function.comp, pow_succ]
  ring_nf
  simp

theorem fetch_go_attempts_le (oracle : Nat → Attempt) :
    ∀ budget i d, (fetch_go oracle budget i d).2.1 ≤ budget := by
  intro budget
  induction budget with
  | zero => intro i d; simp [fetch_go]
  | succ b ih =>
    intro i d
    cases hoc : oracle i with
    | ok parses => simp [fetch_go, hoc]
    | httpError st =>
      by_cases h4 : st = 400
      · simp [fetch_go, hoc, h4]
      · have h := ih (i + 1) (d * 2)
        rcases hr : fetch_go oracle b (i + 1) (d * 2) with ⟨out, n, ds⟩
        rw [hr] at h
        simp [fetch_go, hoc, h4, hr]
        simp at h
        omega

theorem fetch_go_delays (oracle : Nat → Attempt) :
    ∀ budget i d, (fetch_go oracle budget i d).2.2
      = (List.range (fetch_go oracle budget i d).2.2.length).map (fun j => d * 2 ^ j) := by
  intro budget
  induction budget with
  | zero => intro i d; simp [fetch_go]
  | succ b ih =>
    intro i d
    cases hoc : oracle i with
    | ok parses => simp [fetch_go, hoc]
    | httpError st =>
      by_cases h4 : st = 400
      · simp [fetch_go, hoc, h4]
      · have h := ih (i + 1) (d * 2)
        simp only [fetch_go, hoc, h4, if_neg, ite_false]
        simp only [List.length_cons]
        rw [h]
        rw [List.length_map, List.length_range]
        exact delays_shift d _

theorem fetch_go_all_fail (oracle : Nat → Attempt) :
    ∀ budget i d,
      (∀ j, j < budget → ∃ st, oracle (i + j) = Attempt.httpError st ∧ st ≠ 400) →
      fetch_go oracle budget i d
        = (FetchOutcome.commFailure, budget, (List.range budget).map (fun j => d * 2 ^ j)) := by
  intro budget
  induction budget with
  | zero => intro i d _; simp [fetch_go]
  | succ b ih =>
    intro i d hfail
    obtain ⟨st, hst, hne⟩ := hfail 0 (Nat.succ_pos b)
    rw [Nat.add_zero] at hst
    have hrec := ih (i + 1) (d * 2) (fun j hj => by
      have := hfail (j + 1) (by omega)
      rwa [show i + (j + 1) = i + 1 + j by omega] at this)
    simp only [fetch_go, hst, if_neg hne]
    rw [hrec]
    exact Prod.ext rfl (Prod.ext rfl (delays_shift d b))

theorem fetch_go_stop (oracle : Nat → Attempt) :
    ∀ n budget i d, n < budget →
      (∀ j, j < n → ∃ st, oracle (i + j) = Attempt.httpError st ∧ st ≠ 400) →
      ∀ parses, oracle (i + n) = Attempt.ok parses →
      fetch_go oracle budget i d
        = (if parses then FetchOutcome.parsed else FetchOutcome.commFailure, n + 1,
           (List.range n).map (fun j => d * 2 ^ j)) := by
  intro n
  induction n with
  | zero =>
    intro budget i d hlt _ parses hok
    obtain ⟨b, rfl⟩ : ∃ b, budget = b + 1 := ⟨budget - 1, by omega⟩
    rw [Nat.add_zero] at hok
    simp [fetch_go, hok]
  | succ m ih =>
    intro budget i d hlt hfail parses hok
    obtain ⟨b, rfl⟩ : ∃ b, budget = b + 1 := ⟨budget - 1, by omega⟩
    obtain ⟨st, hst, hne⟩ := hfail 0 (Nat.succ_pos m)
    rw [Nat.add_zero] at hst
    have hrec := ih b (i + 1) (d * 2) (by omega)
      (fun j hj => by
        have := hfail (j + 1) (by omega)
        rwa [show i + (j + 1) = i + 1 + j by omega] at this)
      parses (by rwa [show i + 1 + m = i + (m + 1) by omega])
    simp only [fetch_go, hst, if_neg hne]
    rw [hrec]
    exact Prod.ext rfl (Prod.ext rfl (delays_shift d m))

/-- Claim C3: _fetch_url makes at most retries + 1 attempts; the sleeps
performed form the doubling sequence 1, 2, 4, ...; a 400 Bad Request on the
first attempt raises immediately with exactly one attempt and no sleeps; if
every permitted attempt fails retryably the result is a communication
failure after exactly retries + 1 attempts; and the first nominally
successful response ends the loop immediately — with a parsed payload if
its body parses, and with an unretried communication failure if not. -/
theorem C3_fetch_url_retry_policy (oracle : Nat → Attempt) (retries : Nat) :
    (fetch_url_model oracle retries).2.1 ≤ retries + 1 ∧
    (fetch_url_model oracle retries).2.2
      = (List.range (fetch_url_model oracle retries).2.2.length).map (fun j => 2 ^ j) ∧
    (oracle 0 = Attempt.httpError 400 →
      fetch_url_model oracle retries = (FetchOutcome.badRequest, 1, [])) ∧
    ((∀ j, j < retries + 1 → ∃ st, oracle j = Attempt.httpError st ∧ st ≠ 400) →
      fetch_url_model oracle retries
        = (FetchOutcome.commFailure, retries + 1,
           (List.range (retries + 1)).map (fun j => 2 ^ j))) ∧
    (∀ n, n < retries + 1 →
      (∀ j, j < n → ∃ st, oracle j = Attempt.httpError st ∧ st ≠ 400) →
      ∀ parses, oracle n = Attempt.ok parses →
      fetch_url_model oracle retries
        = (if parses then FetchOutcome.parsed else FetchOutcome.commFailure, n + 1,
           (List.range n).map (fun j => 2 ^ j))) := by
  have hone : ∀ m : Nat, (List.range m).map (fun j => 1 * 2 ^ j)
      = (List.range m).map (fun j => 2 ^ j) := by
    intro m; simp
  refine ⟨fetch_go_attempts_le oracle (retries + 1) 0 1, ?_, ?_, ?_, ?_⟩
  · have h := fetch_go_delays oracle (retries + 1) 0 1
    rw [fetch_url_model, h, hone, List.length_map, List.length_range]
  · intro h400
    rw [fetch_url_model, fetch_go, h400]
    simp
  · intro hfail
    have h := fetch_go_all_fail oracle (retries + 1) 0 1 (fun j hj => by
      simpa using hfail j hj)
    rw [fetch_url_model, h, hone]
  · intro n hn hfail parses hok
    have h := fetch_go_stop oracle n (retries + 1) 0 1 hn
      (fun j hj => by simpa using hfail j hj) parses (by simpa using hok)
    rw [fetch_url_model, h, hone]

/-- Concrete instantiations of C3: an immediate 400 gives one attempt and
no sleeps; three 500s followed by a parseable success give four attempts
with backoff sleeps 1, 2, 4. -/
theorem C3_fetch_url_retry_policy_witness :
    fetch_url_model oracleBad400 3 = (FetchOutcome.badRequest, 1, []) ∧
    fetch_url_model oracleServerErrThenOk 3 = (FetchOutcome.parsed, 4, [1, 2, 4]) := by
  constructor
  · exact (C3_fetch_url_retry_policy oracleBad400 3).2.2.1 rfl
  · have h := (C3_fetch_url_retry_policy oracleServerErrThenOk 3).2.2.2.2 3 (by decide)
      (fun j hj => ⟨500, by simp [oracleServerErrThenOk, hj], by decide⟩)
      true (by decide)
    exact h.trans (by decide)

/-- Claim C5 is false on this code: no record-count field is ever
stripped.  A response whose meta carries an internal count column
("n_rows") and whose record carries the matching value is passed through
by `latest` in full, and `_convert_tuple_to_df` keeps every column. -/
theorem C5_no_stripping_counterexample :
    latest_model
        [[Cell.num 0, Cell.str "2023-12-01T00:30:00Z", Cell.num 5, Cell.num 48]]
        ["gsp_id", "datetime_gmt", "generation_mw", "n_rows"] false
      = some (Sum.inl [Cell.num 0, Cell.str "2023-12-01T00:30:00Z", Cell.num 5, Cell.num 48]) ∧
    (convert_tuple_to_df
        [[Cell.num 0, Cell.str "2023-12-01T00:30:00Z", Cell.num 5, Cell.num 48]]
        ["gsp_id", "datetime_gmt", "generation_mw", "n_rows"]).cols
      = ["gsp_id", "datetime_gmt", "generation_mw", "n_rows"] ∧
    "n_rows" ∈ (convert_tuple_to_df
        [[Cell.num 0, Cell.str "2023-12-01T00:30:00Z", Cell.num 5, Cell.num 48]]
        ["gsp_id", "datetime_gmt", "generation_mw", "n_rows"]).cols ∧
    (∀ row ∈ (convert_tuple_to_df
        [[Cell.num 0, Cell.str "2023-12-01T00:30:00Z", Cell.num 5, Cell.num 48]]
        ["gsp_id", "datetime_gmt", "generation_mw", "n_rows"]).rows,
      row.length = 4) := by
  refine ⟨rfl, rfl, by decide, ?_⟩
  decide

/-- Claim C5 amended: nothing is stripped — the result normalizer passes
meta through as the column list unchanged, keeps one output row per input
record, and `latest` returns the first record with all its fields. -/
theorem C5_passthrough_amended (data : List Rcd) (meta : List String) :
    (convert_tuple_to_df data meta).cols = meta ∧
    (convert_tuple_to_df data meta).rows.length = data.length ∧
    (∀ d0 rest, data = d0 :: rest → latest_model data meta false = some (Sum.inl d0)) := by
  refine ⟨rfl, ?_, ?_⟩
  · rw [convert_tuple_to_df]
    dsimp only
    split <;> simp
  · rintro d0 rest rfl
    rfl

/-- Concrete instantiation of C5's amended statement. -/
theorem C5_passthrough_amended_witness :
    (convert_tuple_to_df [[Cell.null]] ["generation_mw"]).cols = ["generation_mw"] ∧
    latest_model [[Cell.null]] ["generation_mw"] false = some (Sum.inl [Cell.null]) :=
  ⟨(C5_passthrough_amended [[Cell.null]] ["generation_mw"]).1,
   (C5_passthrough_amended [[Cell.null]] ["generation_mw"]).2.2 [Cell.null] [] rfl⟩

/-- Claim C9 is false on this code: when the service reports no data,
`latest` returns None (line 217), not an all-null placeholder record. -/
theorem C9_latest_none_counterexample :
    latest_model [] ["pes_id", "datetime_gmt", "generation_mw"] false = none ∧
    latest_model [] ["pes_id", "datetime_gmt", "generation_mw"] true = none :=
  ⟨rfl, rfl⟩

/-- Claim C9 amended: `latest` returns None (no record at all) when the
service reports no data; when data exists it returns a single result
built from the first returned record, as a tuple or DataFrame per the
output-shape flag. -/
theorem C9_latest_amended (data : List Rcd) (meta : List String) :
    (data = [] → latest_model data meta false = none ∧ latest_model data meta true = none) ∧
    (∀ d0 rest, data = d0 :: rest →
      latest_model data meta false = some (Sum.inl d0) ∧
      latest_model data meta true = some (Sum.inr (convert_tuple_to_df [d0] meta))) := by
  constructor
  · rintro rfl
    exact ⟨rfl, rfl⟩
  · rintro d0 rest rfl
    exact ⟨rfl, rfl⟩

/-- Concrete instantiation of C9's amended statement. -/
theorem C9_latest_amended_witness :
    latest_model [[Cell.num 5]] ["generation_mw"] false = some (Sum.inl [Cell.num 5]) ∧
    latest_model [[Cell.num 5]] ["generation_mw"] true
      = some (Sum.inr (convert_tuple_to_df [[Cell.num 5]] ["generation_mw"])) :=
  (C9_latest_amended [[Cell.num 5]] ["generation_mw"]).2 [Cell.num 5] [] rfl

/-- Claim C10: a non-tabular at_time call whose underlying between call
succeeds with an empty record list raises IndexError while unwrapping
`result[0]` — it never returns None or a placeholder — and it returns a
record exactly when the service returned at least one row, namely the
first one. -/
theorem C10_at_time_empty_raises (gsp_ids pes_ids : List Int)
    (entity_type : PyVal) (entity_id : Int) (period : Nat) (dt : PyDT)
    (oracle : Nat × Nat → List Rcd × List String)
    (data : List Rcd) (meta : List String) (reqs : List (Nat × Nat))
    (hok : between_model gsp_ids pes_ids entity_type entity_id period dt dt oracle
      = (Except.ok (data, meta), reqs)) :
    (data = [] →
      at_time_model gsp_ids pes_ids entity_type entity_id period dt oracle false
        = Except.error PyErr.indexError) ∧
    (∀ r rest, data = r :: rest →
      at_time_model gsp_ids pes_ids entity_type entity_id period dt oracle false
        = Except.ok (Sum.inl r)) ∧
    (∀ x, at_time_model gsp_ids pes_ids entity_type entity_id period dt oracle false
        = Except.ok x → ∃ r rest, data = r :: rest ∧ x = Sum.inl r) := by
  refine ⟨?_, ?_, ?_⟩
  · rintro rfl
    rw [at_time_model, hok]
    rfl
  · rintro r rest rfl
    rw [at_time_model, hok]
    rfl
  · intro x hx
    rw [at_time_model, hok] at hx
    cases data with
    | nil => simp at hx
    | cons r rest =>
      simp at hx
      exact ⟨r, rest, rfl, hx.symm⟩

/-- Concrete instantiation of C10: a valid national gsp query at an
aligned instant against a service returning no rows. -/
theorem C10_at_time_empty_raises_witness :
    between_model [0] [] (PyVal.str "gsp") 0 30
        (PyDT.aware 1800000000) (PyDT.aware 1800000000) oracleEmpty
      = (Except.ok ([], ["gsp_id", "datetime_gmt", "generation_mw"]),
         [(1800000000, 1800000000)]) ∧
    at_time_model [0] [] (PyVal.str "gsp") 0 30 (PyDT.aware 1800000000) oracleEmpty false
      = Except.error PyErr.indexError := by
  have hok : between_model [0] [] (PyVal.str "gsp") 0 30
      (PyDT.aware 1800000000) (PyDT.aware 1800000000) oracleEmpty
      = (Except.ok ([], ["gsp_id", "datetime_gmt", "generation_mw"]),
         [(1800000000, 1800000000)]) := by rfl
  exact ⟨hok,
    (C10_at_time_empty_raises [0] [] (PyVal.str "gsp") 0 30 (PyDT.aware 1800000000)
      oracleEmpty [] ["gsp_id", "datetime_gmt", "generation_mw"]
      [(1800000000, 1800000000)] hok).1 rfl⟩

theorem validate_none_facts (gsp_ids pes_ids : List Int) (et : PyVal)
    (eid : Int) (period : Nat)
    (hv : validate_inputs gsp_ids pes_ids et eid period = none) :
    (∃ s, et = PyVal.str s ∧ (s = "pes" ∨ s = "gsp")) ∧
    (et = PyVal.str "gsp" → eid ∈ gsp_ids) ∧
    (et = PyVal.str "pes" → eid = 0 ∨ eid ∈ pes_ids) ∧
    (period = 5 ∨ period = 30) := by
  cases et with
  | int n => simp [validate_inputs] at hv
  | str s =>
    rw [validate_inputs] at hv
    split_ifs at hv with h1 h2 h3 h4
    refine ⟨⟨s, rfl, by tauto⟩, ?_, ?_, by tauto⟩
    · intro hs
      injection hs with hs
      subst hs
      by_contra hmem
      exact h3 ⟨rfl, hmem⟩
    · intro hs
      injection hs with hs
      subst hs
      by_cases h0 : eid = 0
      · exact Or.inl h0
      · right
        by_contra hmem
        exact h2 ⟨rfl, h0, hmem⟩

/-- Claim C7: every input error — an entity kind that is not a string, a
string kind other than "pes"/"gsp", a gsp id outside the gsp catalog, a
nonzero pes id outside the pes catalog (0 is the national sentinel the
pes kind exempts), an unsupported period, a non-datetime or naive start
or end, or an inverted interval — makes the between pipeline raise
synchronously with an empty request list: no network request for a chunk
is ever issued. -/
theorem C7_input_errors_before_network (gsp_ids pes_ids : List Int)
    (entity_type : PyVal) (entity_id : Int) (period : Nat) (start end_ : PyDT)
    (oracle : Nat × Nat → List Rcd × List String)
    (hbad :
      (∃ n : Int, entity_type = PyVal.int n) ∨
      (∃ s, entity_type = PyVal.str s ∧ s ≠ "pes" ∧ s ≠ "gsp") ∨
      (entity_type = PyVal.str "gsp" ∧ entity_id ∉ gsp_ids) ∨
      (entity_type = PyVal.str "pes" ∧ entity_id ≠ 0 ∧ entity_id ∉ pes_ids) ∨
      (period ≠ 5 ∧ period ≠ 30) ∨
      start = PyDT.notdt ∨ end_ = PyDT.notdt ∨
      (∃ t, start = PyDT.naive t) ∨ (∃ t, end_ = PyDT.naive t) ∨
      (∃ a b, start = PyDT.aware a ∧ end_ = PyDT.aware b ∧ b < a)) :
    ∃ err, between_model gsp_ids pes_ids entity_type entity_id period start end_ oracle
      = (Except.error err, []) := by
  cases hv : validate_inputs gsp_ids pes_ids entity_type entity_id period with
  | some err => exact ⟨err, by simp [between_model, hv]⟩
  | none =>
    have hf := validate_none_facts gsp_ids pes_ids entity_type entity_id period hv
    obtain ⟨⟨s, rfl, hs⟩, hgsp, hpes, hper⟩ := hf
    rcases hbad with ⟨n, hn⟩ | ⟨s2, hs2, hnp, hng⟩ | ⟨hgt, hnmem⟩ |
      ⟨hpt, hne0, hnmem⟩ | ⟨h5, h30⟩ | hsn | hen | ⟨t, hst⟩ | ⟨t, het⟩ |
      ⟨a, b, ha, hb, hlt⟩
    · exact PyVal.noConfusion hn
    · injection hs2 with h
      subst h
      tauto
    · injection hgt with h
      subst h
      exact absurd (hgsp rfl) hnmem
    · injection hpt with h
      subst h
      rcases hpes rfl with h0 | hmem
      · exact absurd h0 hne0
      · exact absurd hmem hnmem
    · tauto
    · subst hsn
      exact ⟨PyErr.attributeError, by simp [between_model, hv]⟩
    · subst hen
      cases start with
      | notdt => exact ⟨PyErr.attributeError, by simp [between_model, hv]⟩
      | naive t => exact ⟨PyErr.valueError, by simp [between_model, hv]⟩
      | aware t => exact ⟨PyErr.attributeError, by simp [between_model, hv]⟩
    · subst hst
      exact ⟨PyErr.valueError, by simp [between_model, hv]⟩
    · subst het
      cases start with
      | notdt => exact ⟨PyErr.attributeError, by simp [between_model, hv]⟩
      | naive t2 => exact ⟨PyErr.valueError, by simp [between_model, hv]⟩
      | aware t2 => exact ⟨PyErr.valueError, by simp [between_model, hv]⟩
    · subst ha
      subst hb
      exact ⟨PyErr.valueError, by simp [between_model, hv, hlt]⟩

/-- Concrete instantiation of C7: an unsupported entity kind string is
rejected with no network requests. -/
theorem C7_input_errors_before_network_witness :
    ∃ err, between_model [0] [] (PyVal.str "foo") 0 30
        (PyDT.aware 0) (PyDT.aware 0) oracleEmpty
      = (Except.error err, []) :=
  C7_input_errors_before_network [0] [] (PyVal.str "foo") 0 30
    (PyDT.aware 0) (PyDT.aware 0) oracleEmpty
    (Or.inr (Or.inl ⟨"foo", rfl, by decide, by decide⟩))

theorem between_loopF_reqs (oracle : Nat × Nat → List Rcd × List String)
    (maxr step : Nat) :
    ∀ f s e, (between_loopF oracle maxr step f s e).2.2 = chunksF maxr step f s e := by
  intro f
  induction f with
  | zero => intro s e; rfl
  | succ g ih =>
    intro s e
    by_cases hse : s ≤ e
    · simp only [between_loopF, chunksF, if_pos hse]
      simp [ih]
    · simp [between_loopF, chunksF, hse]

theorem between_loopF_data (oracle : Nat × Nat → List Rcd × List String)
    (maxr step : Nat) :
    ∀ f s e, (between_loopF oracle maxr step f s e).1
      = gatherData oracle ((between_loopF oracle maxr step f s e).2.2) := by
  intro f
  induction f with
  | zero => intro s e; rfl
  | succ g ih =>
    intro s e
    by_cases hse : s ≤ e
    · simp only [between_loopF, if_pos hse]
      simp [gatherData, ih]
    · simp [between_loopF, gatherData, hse]

theorem between_loopF_meta (oracle : Nat × Nat → List Rcd × List String)
    (maxr step : Nat) (M : List String)
    (hM : ∀ c, (oracle c).2 = M) (hstep : 0 < step) :
    ∀ f s e, e + 1 - s ≤ f → s ≤ e →
      (between_loopF oracle maxr step f s e).2.1 = M := by
  intro f
  induction f with
  | zero => intro s e h1 h2; omega
  | succ g ih =>
    intro s e h1 hse
    simp only [between_loopF, if_pos hse]
    by_cases hnext : s + maxr + step ≤ e
    · simp only [if_pos hnext]
      exact ih (s + maxr + step) e (by omega) hnext
    · simp only [if_neg hnext]
      exact hM _

theorem gatherData_mem (oracle : Nat × Nat → List Rcd × List String) :
    ∀ (reqs : List (Nat × Nat)) (r : Rcd),
      r ∈ gatherData oracle reqs → ∃ c ∈ reqs, r ∈ (oracle c).1 := by
  intro reqs
  induction reqs with
  | nil => intro r h; simp [gatherData] at h
  | cons c cs ih =>
    intro r h
    rw [gatherData] at h
    rcases List.mem_append.mp h with h1 | h2
    · exact ⟨c, List.mem_cons_self _ _, h1⟩
    · obtain ⟨c2, hc2, hr⟩ := ih r h2
      exact ⟨c2, List.mem_cons_of_mem _ hc2, hr⟩

theorem nearest_interval_formula_5 (t : Nat) :
    nearest_interval t 5
      = if t % 300000000 = 0 then t else t - t % 300000000 + 300000000 := by
  by_cases h : aligned t 5
  · have h5 := h
    unfold aligned at h5
    rw [nearest_interval, if_pos h5, if_pos ((aligned_iff_5 t).mp h)]
  · have h5 : ¬ (minuteOf t % 5 = 0 ∧ secondOf t = 0 ∧ microsecondOf t = 0) := h
    rw [nearest_interval, if_neg h5, residue_5 t,
      if_neg (fun hz => h ((aligned_iff_5 t).mpr hz))]

theorem nearest_interval_formula_30 (t : Nat) :
    nearest_interval t 30
      = if t % 1800000000 = 0 then t else t - t % 1800000000 + 1800000000 := by
  by_cases h : aligned t 30
  · have h30 := h
    unfold aligned at h30
    rw [nearest_interval, if_pos h30, if_pos ((aligned_iff_30 t).mp h)]
  · have h30 : ¬ (minuteOf t % 30 = 0 ∧ secondOf t = 0 ∧ microsecondOf t = 0) := h
    rw [nearest_interval, if_neg h30, residue_30 t,
      if_neg (fun hz => h ((aligned_iff_30 t).mpr hz))]

theorem nearest_interval_mono (p a b : Nat) (hp : p = 5 ∨ p = 30) (hab : a ≤ b) :
    nearest_interval a p ≤ nearest_interval b p := by
  rcases hp with hp | hp <;> subst hp
  · rw [nearest_interval_formula_5 a, nearest_interval_formula_5 b]
    split_ifs <;> omega
  · rw [nearest_interval_formula_30 a, nearest_interval_formula_30 b]
    split_ifs <;> omega

/-- Claim C8: when the service answers every chunk of one between-style
call with the same meta M (the service contract: meta depends only on the
query parameters, which are identical across chunks except start/end),
the merged result's meta is M and every record of every chunk belongs to
a chunk whose meta equals the returned meta — one Meta describes all
Records regardless of how many chunks were needed. -/
theorem C8_uniform_meta (gsp_ids pes_ids : List Int) (entity_type : PyVal)
    (entity_id : Int) (period : Nat) (ts te : Nat)
    (oracle : Nat × Nat → List Rcd × List String) (M : List String)
    (hM : ∀ c, (oracle c).2 = M)
    (data : List Rcd) (meta : List String) (reqs : List (Nat × Nat))
    (hok : between_model gsp_ids pes_ids entity_type entity_id period
        (PyDT.aware ts) (PyDT.aware te) oracle = (Except.ok (data, meta), reqs)) :
    meta = M ∧ data = gatherData oracle reqs ∧
    (∀ r ∈ data, ∃ c ∈ reqs, r ∈ (oracle c).1 ∧ (oracle c).2 = meta) := by
  cases hv : validate_inputs gsp_ids pes_ids entity_type entity_id period with
  | some err => simp [between_model, hv] at hok
  | none =>
    have hper := (validate_none_facts _ _ _ _ _ hv).2.2.2
    by_cases hlt : te < ts
    · simp [between_model, hv, hlt] at hok
    · simp only [between_model, hv, if_neg hlt] at hok
      rw [Prod.mk.injEq, Except.ok.injEq, Prod.mk.injEq] at hok
      obtain ⟨⟨hdata, hmeta⟩, hreqs⟩ := hok
      subst hdata
      subst hmeta
      subst hreqs
      have hstep : 0 < period * 60000000 := by
        rcases hper with h | h <;> subst h <;> norm_num
      have hse : nearest_interval ts period ≤ nearest_interval te period :=
        nearest_interval_mono period ts te hper (by omega)
      have hm := between_loopF_meta oracle (max_range_for entity_type entity_id)
        (period * 60000000) M hM hstep
        (nearest_interval te period + 1 - nearest_interval ts period)
        (nearest_interval ts period) (nearest_interval te period) (le_refl _) hse
      have hd := between_loopF_data oracle (max_range_for entity_type entity_id)
        (period * 60000000)
        (nearest_interval te period + 1 - nearest_interval ts period)
        (nearest_interval ts period) (nearest_interval te period)
      refine ⟨hm, hd, ?_⟩
      intro r hr
      rw [hd] at hr
      obtain ⟨c, hc, hrc⟩ := gatherData_mem oracle _ r hr
      exact ⟨c, hc, hrc, by rw [hM c, hm]⟩

/-- Concrete instantiation of C8: a 31-day regional-limit query split
into two chunks whose rows and meta are stitched together. -/
theorem C8_uniform_meta_witness :
    (["gsp_id", "datetime_gmt", "generation_mw"] : List String)
      = ["gsp_id", "datetime_gmt", "generation_mw"] ∧
    ([[Cell.num 0, Cell.str "ts", Cell.num 1], [Cell.num 0, Cell.str "ts", Cell.num 1]]
        : List Rcd)
      = gatherData oracleOneRow
          [(1800000000, 2593800000000), (2595600000000, 2595600000000)] ∧
    (∀ r ∈ ([[Cell.num 0, Cell.str "ts", Cell.num 1],
             [Cell.num 0, Cell.str "ts", Cell.num 1]] : List Rcd),
      ∃ c ∈ [(1800000000, 2593800000000), (2595600000000, 2595600000000)],
        r ∈ (oracleOneRow c).1 ∧
        (oracleOneRow c).2 = ["gsp_id", "datetime_gmt", "generation_mw"]) :=
  C8_uniform_meta [0] [] (PyVal.str "gsp") 0 30 1800000000 2595600000000
    oracleOneRow ["gsp_id", "datetime_gmt", "generation_mw"] (fun _ => rfl)
    [[Cell.num 0, Cell.str "ts", Cell.num 1], [Cell.num 0, Cell.str "ts", Cell.num 1]]
    ["gsp_id", "datetime_gmt", "generation_mw"]
    [(1800000000, 2593800000000), (2595600000000, 2595600000000)] (by rfl)

theorem argmaxFirstAux_spec (rest : List ℚ) : ∀ (best i : Nat) (bestv : ℚ),
    (argmaxFirstAux best bestv i rest = best ∧
      (∀ k x, rest.get? k = some x → x ≤ bestv)) ∨
    (∃ k x, rest.get? k = some x ∧ argmaxFirstAux best bestv i rest = i + k ∧
      bestv < x ∧ (∀ m y, rest.get? m = some y → y ≤ x) ∧
      (∀ m y, m < k → rest.get? m = some y → y < x)) := by
  induction rest with
  | nil =>
    intro best i bestv
    left
    exact ⟨rfl, fun k x h => by simp at h⟩
  | cons v vs ih =>
    intro best i bestv
    by_cases hv : bestv < v
    · have hstep : argmaxFirstAux best bestv i (v :: vs)
          = argmaxFirstAux i v (i + 1) vs := by
        rw [argmaxFirstAux, if_pos hv]
      rcases ih i (i + 1) v with ⟨heq, hle⟩ | ⟨k, x, hk, heq, hlt, hmax, hfirst⟩
      · right
        refine ⟨0, v, rfl, ?_, hv, ?_, ?_⟩
        · rw [hstep, heq]
          omega
        · intro m y hm
          cases m with
          | zero =>
            rw [List.get?_cons_zero] at hm
            injection hm with h
            subst h
            exact le_refl v
          | succ m2 =>
            rw [List.get?_cons_succ] at hm
            exact hle m2 y hm
        · intro m y hmk hm
          exact absurd hmk (Nat.not_lt_zero m)
      · right
        refine ⟨k + 1, x, ?_, ?_, lt_trans hv hlt, ?_, ?_⟩
        · rw [List.get?_cons_succ]
          exact hk
        · rw [hstep, heq]
          omega
        · intro m y hm
          cases m with
          | zero =>
            rw [List.get?_cons_zero] at hm
            injection hm with h
            subst h
            exact le_of_lt hlt
          | succ m2 =>
            rw [List.get?_cons_succ] at hm
            exact hmax m2 y hm
        · intro m y hmk hm
          cases m with
          | zero =>
            rw [List.get?_cons_zero] at hm
            injection hm with h
            subst h
            exact hlt
          | succ m2 =>
            rw [List.get?_cons_succ] at hm
            exact hfirst m2 y (by omega) hm
    · have hstep : argmaxFirstAux best bestv i (v :: vs)
          = argmaxFirstAux best bestv (i + 1) vs := by
        rw [argmaxFirstAux, if_neg hv]
      have hvle : v ≤ bestv := le_of_not_lt hv
      rcases ih best (i + 1) bestv with ⟨heq, hle⟩ | ⟨k, x, hk, heq, hlt, hmax, hfirst⟩
      · left
        refine ⟨by rw [hstep, heq], ?_⟩
        intro m y hm
        cases m with
        | zero =>
          rw [List.get?_cons_zero] at hm
          injection hm with h
          subst h
          exact hvle
        | succ m2 =>
          rw [List.get?_cons_succ] at hm
          exact hle m2 y hm
      · right
        refine ⟨k + 1, x, ?_, ?_, hlt, ?_, ?_⟩
        · rw [List.get?_cons_succ]
          exact hk
        · rw [hstep, heq]
          omega
        · intro m y hm
          cases m with
          | zero =>
            rw [List.get?_cons_zero] at hm
            injection hm with h
            subst h
            exact le_trans hvle (le_of_lt hlt)
          | succ m2 =>
            rw [List.get?_cons_succ] at hm
            exact hmax m2 y hm
        · intro m y hmk hm
          cases m with
          | zero =>
            rw [List.get?_cons_zero] at hm
            injection hm with h
            subst h
            exact lt_of_le_of_lt hvle hlt
          | succ m2 =>
            rw [List.get?_cons_succ] at hm
            exact hfirst m2 y (by omega) hm

theorem argmaxFirst_spec (l : List ℚ) (hl : l ≠ []) :
    argmaxFirst l < l.length ∧
    (∃ w, l.get? (argmaxFirst l) = some w ∧
      (∀ m y, l.get? m = some y → y ≤ w) ∧
      (∀ m y, m < argmaxFirst l → l.get? m = some y → y < w)) := by
  cases l with
  | nil => exact absurd rfl hl
  | cons v vs =>
    have hd : argmaxFirst (v :: vs) = argmaxFirstAux 0 v 1 vs := rfl
    rcases argmaxFirstAux_spec vs 0 1 v with ⟨heq, hle⟩ | ⟨k, x, hk, heq, hlt, hmax, hfirst⟩
    · rw [hd, heq]
      refine ⟨Nat.succ_pos _, v, rfl, ?_, ?_⟩
      · intro m y hm
        cases m with
        | zero =>
          rw [List.get?_cons_zero] at hm
          injection hm with h
          subst h
          exact le_refl _
        | succ m2 =>
          rw [List.get?_cons_succ] at hm
          exact hle m2 y hm
      · intro m y hmk hm
        exact absurd hmk (Nat.not_lt_zero m)
    · have hkl : k < vs.length := by
        by_contra hge
        rw [List.get?_eq_none.mpr (by omega)] at hk
        exact Option.noConfusion hk
      rw [hd, heq]
      refine ⟨by simp only [List.length_cons]; omega, x, ?_, ?_, ?_⟩
      · rw [show (1 : Nat) + k = k + 1 from by omega, List.get?_cons_succ]
        exact hk
      · intro m y hm
        cases m with
        | zero =>
          rw [List.get?_cons_zero] at hm
          injection hm with h
          subst h
          exact le_of_lt hlt
        | succ m2 =>
          rw [List.get?_cons_succ] at hm
          exact hmax m2 y hm
      · intro m y hmk hm
        cases m with
        | zero =>
          rw [List.get?_cons_zero] at hm
          injection hm with h
          subst h
          exact hlt
        | succ m2 =>
          rw [List.get?_cons_succ] at hm
          exact hfirst m2 y (by omega) hm

theorem getD_of_some (l : List Rcd) : ∀ (i : Nat) (r : Rcd),
    l.get? i = some r → l.getD i [] = r := by
  induction l with
  | nil => intro i r h; simp at h
  | cons a t ih =>
    intro i r h
    cases i with
    | zero =>
      rw [List.get?_cons_zero] at h
      injection h with h
    | succ j =>
      rw [List.get?_cons_succ] at h
      simpa [List.getD] using ih j r h

set_option maxRecDepth 40000 in
/-- Claim C4 is false on this code: a day whose records all have null
measures does not yield "no peak" — with two all-null records, day_peak's
selection returns the first record (whose measure is null), not None. -/
theorem C4_day_peak_all_null_counterexample :
    day_peak_select [[Cell.null], [Cell.null]] ["generation_mw"] = some [Cell.null] ∧
    day_peak_select [[Cell.null], [Cell.null]] ["generation_mw"] ≠ none := by
  constructor
  · rfl
  · intro h
    exact Option.noConfusion (h.symm.trans rfl)

set_option maxRecDepth 40000 in
/-- Claim C4 amended: day_peak queries the reporting-day interval (00:30
UTC through next-day 00:00 UTC inclusive) and selects the record at the
first maximal entry of the gens list, where a null measure counts as
-1e308; a null-measure record cannot win while some record carries a
numeric measure above -1e308; ties resolve to the first maximal record;
None is returned only when the day has no records at all — when every
record's measure is null, the first record (with its null measure) is
returned instead of no peak. -/
theorem C4_day_peak_amended (d : Nat) (data : List Rcd) (meta : List String) :
    day_peak_start d = d * dayUs + 1800000000 ∧
    day_peak_end d = (d + 1) * dayUs ∧
    (data = [] → day_peak_select data meta = none) ∧
    (data ≠ [] →
      ∃ i w, i < data.length ∧
        day_peak_select data meta = some (data.getD i []) ∧
        (day_peak_gens data (genIndex meta)).get? i = some w ∧
        (∀ m y, (day_peak_gens data (genIndex meta)).get? m = some y → y ≤ w) ∧
        (∀ m y, m < i → (day_peak_gens data (genIndex meta)).get? m = some y → y < w)) ∧
    ((∃ j r v, data.get? j = some r ∧
        r.getD (genIndex meta) Cell.null = Cell.num v ∧ -(10 : ℚ) ^ 308 < v) →
      ∃ rcd u, day_peak_select data meta = some rcd ∧
        rcd.getD (genIndex meta) Cell.null = Cell.num u) ∧
    (data ≠ [] →
      (∀ j r, data.get? j = some r → r.getD (genIndex meta) Cell.null = Cell.null) →
      day_peak_select data meta = data.head?) := by
  refine ⟨rfl, ?_, ?_, ?_, ?_, ?_⟩
  · rw [day_peak_end, day_peak_start, dayUs]
    ring_nf
    omega
  · rintro rfl
    rfl
  · intro hne
    obtain ⟨d0, rest, rfl⟩ := List.exists_cons_of_ne_nil hne
    obtain ⟨hlt, w, hw, hmax, hfirst⟩ :=
      argmaxFirst_spec (day_peak_gens (d0 :: rest) (genIndex meta))
        (by simp [day_peak_gens])
    have hglen : (day_peak_gens (d0 :: rest) (genIndex meta)).length
        = (d0 :: rest).length := by
      simp [day_peak_gens]
    exact ⟨argmaxFirst (day_peak_gens (d0 :: rest) (genIndex meta)), w,
      by omega, rfl, hw, hmax, hfirst⟩
  · rintro ⟨j, r, v, hj, hcell, hv⟩
    have hne : data ≠ [] := by
      intro h
      subst h
      simp at hj
    obtain ⟨d0, rest, rfl⟩ := List.exists_cons_of_ne_nil hne
    have hgj : (day_peak_gens (d0 :: rest) (genIndex meta)).get? j = some v := by
      rw [day_peak_gens, List.get?_map, hj]
      simp only [Option.map_some']
      rw [hcell]
      rfl
    obtain ⟨hlt, w, hw, hmax, hfirst⟩ :=
      argmaxFirst_spec (day_peak_gens (d0 :: rest) (genIndex meta))
        (by simp [day_peak_gens])
    have hvw : v ≤ w := hmax j v hgj
    have hw2 := hw
    rw [day_peak_gens, List.get?_map] at hw2
    obtain ⟨x, hx, hfx⟩ := Option.map_eq_some'.mp hw2
    have hsel : day_peak_select (d0 :: rest) meta = some x := by
      have hg : (d0 :: rest).getD
          (argmaxFirst (day_peak_gens (d0 :: rest) (genIndex meta))) [] = x :=
        getD_of_some (d0 :: rest) _ x hx
      simp only [day_peak_select]
      rw [hg]
    have hgt : -(10 : ℚ) ^ 308 < w := lt_of_lt_of_le hv hvw
    cases hxc : x.getD (genIndex meta) Cell.null with
    | num u => exact ⟨x, u, hsel, hxc⟩
    | null =>
      exfalso
      rw [hxc] at hfx
      simp [cellGen] at hfx
      rw [← hfx] at hgt
      exact lt_irrefl _ hgt
    | nan =>
      exfalso
      rw [hxc] at hfx
      simp [cellGen] at hfx
      rw [← hfx] at hgt
      exact lt_irrefl _ hgt
    | str s2 =>
      exfalso
      rw [hxc] at hfx
      simp [cellGen] at hfx
      rw [← hfx] at hgt
      exact lt_irrefl _ hgt
    | dts s2 =>
      exfalso
      rw [hxc] at hfx
      simp [cellGen] at hfx
      rw [← hfx] at hgt
      exact lt_irrefl _ hgt
  · intro hne hall
    obtain ⟨d0, rest, rfl⟩ := List.exists_cons_of_ne_nil hne
    have hg : ∀ m y, (day_peak_gens (d0 :: rest) (genIndex meta)).get? m = some y →
        y = -(10 : ℚ) ^ 308 := by
      intro m y hm
      rw [day_peak_gens, List.get?_map] at hm
      obtain ⟨r, hr, hfr⟩ := Option.map_eq_some'.mp hm
      rw [hall m r hr] at hfr
      simp [cellGen] at hfr
      exact hfr.symm
    obtain ⟨hlt, w, hw, hmax, hfirst⟩ :=
      argmaxFirst_spec (day_peak_gens (d0 :: rest) (genIndex meta))
        (by simp [day_peak_gens])
    have hidx : argmaxFirst (day_peak_gens (d0 :: rest) (genIndex meta)) = 0 := by
      by_contra h0
      have hpos : 0 < argmaxFirst (day_peak_gens (d0 :: rest) (genIndex meta)) :=
        Nat.pos_of_ne_zero h0
      have h0g : (day_peak_gens (d0 :: rest) (genIndex meta)).get? 0
          = some (cellGen (d0.getD (genIndex meta) Cell.null)) := by
        rw [day_peak_gens, List.get?_map, List.get?_cons_zero]
        rfl
      have hlt0 := hfirst 0 _ hpos h0g
      have hwv := hg _ w hw
      have h0v := hg 0 _ h0g
      rw [h0v, hwv] at hlt0
      exact lt_irrefl _ hlt0
    simp only [day_peak_select, hidx]
    rfl

set_option maxRecDepth 40000 in
/-- Concrete instantiation of C4's amended statement: records with
measures 3, null, 7 — the peak is the third record, every measure is at
most 7, and the earlier measures are strictly below 7. -/
theorem C4_day_peak_amended_witness :
    ([[Cell.num 3], [Cell.null], [Cell.num 7]] : List Rcd) ≠ [] ∧
    (∃ i w, i < ([[Cell.num 3], [Cell.null], [Cell.num 7]] : List Rcd).length ∧
      day_peak_select [[Cell.num 3], [Cell.null], [Cell.num 7]] ["generation_mw"]
        = some (([[Cell.num 3], [Cell.null], [Cell.num 7]] : List Rcd).getD i []) ∧
      (day_peak_gens [[Cell.num 3], [Cell.null], [Cell.num 7]]
          (genIndex ["generation_mw"])).get? i = some w ∧
      (∀ m y, (day_peak_gens [[Cell.num 3], [Cell.null], [Cell.num 7]]
          (genIndex ["generation_mw"])).get? m = some y → y ≤ w) ∧
      (∀ m y, m < i → (day_peak_gens [[Cell.num 3], [Cell.null], [Cell.num 7]]
          (genIndex ["generation_mw"])).get? m = some y → y < w)) :=
  ⟨by decide,
    (C4_day_peak_amended 0 [[Cell.num 3], [Cell.null], [Cell.num 7]]
      ["generation_mw"]).2.2.2.1 (by decide)⟩
